import Mathlib

/-!
Verification of the Diagram-Scholar client logic.

The development shallowly embeds the three pieces of non-glue logic of the
repository:

* the markdown-subset formatter of `src/components/ExplanationView.tsx`
  (`formatText` and its inner helper `parseInlineStyles`), modelled as pure
  functions over `List Char` line buffers;
* the quiz / chat state machine of the quiz view component
  (`handleNext`, `handlePrevious`, `resetQuiz`, `handleOptionClick`,
  `handleChatSubmit`, and the questions-change effect);
* the app-level upload / analysis handlers of `src/App.tsx`
  (`processFile`, `handleReset`, `handleGenerateMoreQuestions`), with the
  results of the asynchronous environment calls (file reading, model API)
  passed in as explicit parameters.

JavaScript strings are modelled as Lean `String` / `List Char`; the
JavaScript-specific primitives used by the source (`String.prototype.trim`,
`String.prototype.replace` with a string pattern, the regular expressions
`/(\*\*.*?\*\*)/g`, `/^\d+\.\s/` and `/^(\d+)\.\s(.*)/`) are modelled
character by character below.
-/

namespace DiagramScholar

/-! ## JavaScript character classes

`lineTerm` is the ECMAScript LineTerminator set (what `.` does not match in a
regular expression without the `s` flag); `jsWhitespaceChar` is the set
removed by `String.prototype.trim` and matched by `\s`: WhiteSpace
(TAB, VT, FF, SP, NBSP, ZWNBSP and the Unicode Space_Separator category)
together with the line terminators. -/

def lineTerm (c : Char) : Bool :=
  c = '\n' || c = '\r' || c.val = 0x2028 || c.val = 0x2029

def jsWhitespaceChar (c : Char) : Bool :=
  c = ' ' || c = '\t' || c.val = 0x0B || c.val = 0x0C ||
  c.val = 0xA0 || c.val = 0xFEFF || c.val = 0x1680 ||
  (0x2000 ≤ c.val && c.val ≤ 0x200A) ||
  c.val = 0x202F || c.val = 0x205F || c.val = 0x3000 || lineTerm c

/-- Right trim: remove trailing JavaScript whitespace. -/
def trimRight (cs : List Char) : List Char :=
  (cs.reverse.dropWhile jsWhitespaceChar).reverse

/-- `String.prototype.trim`. -/
def jsTrimList (cs : List Char) : List Char :=
  trimRight (cs.dropWhile jsWhitespaceChar)

/-- `String.prototype.startsWith` on character lists. -/
def startsWithList : List Char → List Char → Bool
  | [], _ => true
  | _ :: _, [] => false
  | p :: ps, c :: cs => p == c && startsWithList ps cs

/-- `String.prototype.endsWith` on character lists. -/
def endsWithList (suf cs : List Char) : Bool :=
  startsWithList suf.reverse cs.reverse

/-- `String.prototype.replace(pat, '')` with a plain string pattern: remove
the first occurrence of `pat`, or return the input unchanged when `pat` does
not occur. -/
def removeFirstList (pat : List Char) : List Char → List Char
  | [] => []
  | c :: rest =>
    if startsWithList pat (c :: rest) then (c :: rest).drop pat.length
    else c :: removeFirstList pat rest

/-- `text.split('\n')`: split on newline characters, keeping empty pieces. -/
def splitLinesList : List Char → List (List Char)
  | [] => [[]]
  | c :: rest =>
    match splitLinesList rest with
    | [] => [[c]]
    | l :: ls => if c = '\n' then [] :: l :: ls else (c :: l) :: ls

/-! ## The inline bold scanner

`parseInlineStyles` in the source splits a line with
`text.split(/(\*\*.*?\*\*)/g)` and turns every part that both starts and
ends with `**` into a bold span (the part with its first and last two
characters removed), every other part into plain text.

`findClose` searches, from a position just after an opening `**`, for the
nearest closing `**` (the non-greedy `.*?`), failing on a line terminator
(which `.` does not match) or the end of the input. `scanParts` walks the
line left to right producing the same alternating list of non-match and
match substrings as the JavaScript `split` with one capture group; the fuel
argument only bounds the recursion and equals the input length. -/

def findClose : List Char → Option (List Char × List Char)
  | [] => none
  | c :: rest =>
    if c = '*' && rest.head? = some '*' then some ([], rest.tail)
    else if lineTerm c then none
    else
      match findClose rest with
      | some (content, r) => some (c :: content, r)
      | none => none

def scanParts : Nat → List Char → List Char → List (List Char)
  | _, acc, [] => [acc.reverse]
  | 0, acc, c :: rest => [acc.reverse ++ (c :: rest)]
  | fuel + 1, acc, c :: rest =>
    if c = '*' && rest.head? = some '*' then
      match findClose rest.tail with
      | some (content, r) =>
        acc.reverse :: ('*' :: '*' :: (content ++ ['*', '*'])) :: scanParts fuel [] r
      | none => scanParts fuel (c :: acc) rest
    else scanParts fuel (c :: acc) rest

/-- `text.split(/(\*\*.*?\*\*)/g)`. -/
def boldSplit (cs : List Char) : List (List Char) :=
  scanParts cs.length [] cs

/-- An inline span as rendered: plain text or a bold `<strong>` span. -/
inductive Inline
  | plain : String → Inline
  | bold : String → Inline
deriving DecidableEq

/-- One part of the split, rendered: a part that starts and ends with `**`
becomes a bold span holding `part.slice(2, -2)`; anything else is plain. -/
def renderPart (part : List Char) : Inline :=
  if startsWithList ['*', '*'] part && endsWithList ['*', '*'] part then
    Inline.bold (String.mk ((part.drop 2).dropLast.dropLast))
  else Inline.plain (String.mk part)

/-- The inner `parseInlineStyles` of `formatText`. -/
def parseInlineStyles (cs : List Char) : List Inline :=
  (boldSplit cs).map renderPart

/-! ## The block formatter -/

/-- A typed block node as produced by `formatText`: a `<ul>` of list items,
a heading of level 2 or 3, a numbered-list item, a blank spacer `<div>`, or
a paragraph. -/
inductive Block
  | bullets : List (List Inline) → Block
  | h2 : String → Block
  | h3 : String → Block
  | numbered : String → List Inline → Block
  | spacer : Block
  | para : List Inline → Block
deriving DecidableEq

def dashSpace : List Char := ['-', ' ']

def h2Marker : List Char := ['#', '#', ' ']

def h3Marker : List Char := ['#', '#', '#', ' ']

/-- `line.trim().startsWith('- ')`. -/
def isBulletLine (line : List Char) : Bool :=
  startsWithList dashSpace (jsTrimList line)

/-- The list item pushed for a bullet line:
`parseInlineStyles(line.replace('- ', ''))`. -/
def bulletItem (line : List Char) : List Inline :=
  parseInlineStyles (removeFirstList dashSpace line)

/-- `/^\d+\.\s/.test(cs)`: one or more digits, a dot, then a whitespace
character. -/
def numTest (cs : List Char) : Bool :=
  cs.takeWhile Char.isDigit ≠ [] &&
    match cs.dropWhile Char.isDigit with
    | '.' :: c :: _ => jsWhitespaceChar c
    | _ => false

/-- `line.match(/^(\d+)\.\s(.*)/)`: on success, the digit group and the
rest-of-line group (greedy `.*`, stopping at a line terminator). -/
def numMatch (cs : List Char) : Option (String × List Char) :=
  match cs.dropWhile Char.isDigit with
  | '.' :: c :: rest =>
    if cs.takeWhile Char.isDigit ≠ [] && jsWhitespaceChar c then
      some (String.mk (cs.takeWhile Char.isDigit), rest.takeWhile (fun x => !lineTerm x))
    else none
  | _ => none

/-- The node(s) a non-bullet line contributes: the header, numbered-list,
spacer and paragraph branches of the loop body, in source order. A line in
the numbered branch whose anchored match fails pushes nothing. -/
def blockOfLine (line : List Char) : List Block :=
  if startsWithList h2Marker line then
    [Block.h2 (String.mk (removeFirstList h2Marker line))]
  else if startsWithList h3Marker line then
    [Block.h3 (String.mk (removeFirstList h3Marker line))]
  else if numTest (jsTrimList line) then
    match numMatch line with
    | some (num, content) => [Block.numbered num (parseInlineStyles content)]
    | none => []
  else if jsTrimList line = [] then [Block.spacer]
  else [Block.para (parseInlineStyles line)]

/-- The flush test of the bullet branch: `!nextLine ||
!nextLine.trim().startsWith('- ')` (at the end of the input `nextLine` is
`undefined`; an empty next line is falsy and also fails the bullet test). -/
def flushAfter : List (List Char) → Bool
  | [] => true
  | next :: _ => !isBulletLine next

/-- The main loop of `formatText` over the split lines, with the
`currentListItems` accumulator passed explicitly. -/
def formatLines : List (List Char) → List (List Inline) → List Block
  | [], _ => []
  | line :: rest, items =>
    if isBulletLine line then
      if flushAfter rest then
        Block.bullets (items ++ [bulletItem line]) :: formatLines rest []
      else formatLines rest (items ++ [bulletItem line])
    else blockOfLine line ++ formatLines rest items

/-- `formatText` of `src/components/ExplanationView.tsx`. -/
def formatText (text : String) : List Block :=
  formatLines (splitLinesList text.data) []

/-! ## Specification-side formatter definitions

These re-state, from the words of the specification and of the claims (with
the one amendment C1 forces), what one line and one maximal bullet run are
supposed to produce. They are compared with the source-derived
`formatText` in the C1 theorem: heading texts here are literal prefix
drops, the numbered-line pieces are recomputed from the anchored pattern,
and maximal bullet runs are formed by explicit grouping instead of the
accumulator of the source loop. -/

/-- The typed node(s) a single non-bullet line of the input is specified to
contribute: a line starting with `## ` a level-2 heading holding the rest of
the line, a line starting with `### ` a level-3 heading, a line whose
trimmed form starts with digits, a dot and a whitespace character a
numbered-list item when the line itself is anchored at the digits (and
nothing at all when the digits are preceded by whitespace — the amendment),
a whitespace-only line a blank spacer, and any other line a paragraph. -/
def specLineBlocks (line : List Char) : List Block :=
  if startsWithList h2Marker line then [Block.h2 (String.mk (line.drop 3))]
  else if startsWithList h3Marker line then [Block.h3 (String.mk (line.drop 4))]
  else if numTest (jsTrimList line) then
    if numTest line then
      [Block.numbered (String.mk (line.takeWhile Char.isDigit))
        (parseInlineStyles
          (((line.dropWhile Char.isDigit).drop 2).takeWhile (fun c => !lineTerm c)))]
    else []
  else if jsTrimList line = [] then [Block.spacer]
  else [Block.para (parseInlineStyles line)]

/-- The specified output over the split lines: each maximal run of
consecutive bullet lines becomes one bullet-list node with one item per
line, every other line contributes `specLineBlocks`, in input order. -/
def specBlocks : List (List Char) → List Block
  | [] => []
  | line :: rest =>
    if isBulletLine line then
      Block.bullets ((line :: rest.takeWhile isBulletLine).map bulletItem) ::
        specBlocks (rest.dropWhile isBulletLine)
    else specLineBlocks line ++ specBlocks rest
termination_by ls => ls.length
decreasing_by
  · exact Nat.lt_succ_of_le ((List.dropWhile_sublist isBulletLine).length_le)
  · exact Nat.lt_succ_self _

/-- The texts of the level-2 heading nodes of an output, in order. -/
def h2Texts (bs : List Block) : List String :=
  bs.filterMap fun b =>
    match b with
    | Block.h2 t => some t
    | _ => none

/-- The texts of the level-3 heading nodes of an output, in order. -/
def h3Texts (bs : List Block) : List String :=
  bs.filterMap fun b =>
    match b with
    | Block.h3 t => some t
    | _ => none

/-- A line assembled from an initial plain segment and a list of
(bold content, following plain segment) pairs, each bold content wrapped in
a `**` pair. -/
def encodeChunks : List Char → List (List Char × List Char) → List Char
  | p, [] => p
  | p, (b, q) :: rest => p ++ ('*' :: '*' :: (b ++ ('*' :: '*' :: encodeChunks q rest)))

/-- The spans such a line is specified to render to: the plain segments
unchanged and each bold content as one bold span. -/
def chunkInlines : List Char → List (List Char × List Char) → List Inline
  | p, [] => [Inline.plain (String.mk p)]
  | p, (b, q) :: rest => Inline.plain (String.mk p) :: Inline.bold (String.mk b) ::
      chunkInlines q rest

/-- A bold content the delimiter scanner can hold: no `*` (so it cannot
shift a delimiter) and no line terminator (which `.*?` does not match). -/
def cleanBold (cs : List Char) : Prop :=
  '*' ∉ cs ∧ ∀ c ∈ cs, lineTerm c = false

instance cleanBoldDecidable (cs : List Char) : Decidable (cleanBold cs) :=
  inferInstanceAs (Decidable ('*' ∉ cs ∧ ∀ c ∈ cs, lineTerm c = false))

/-- The split parts after the leading plain segment: for each chunk, the
matched `**…**` substring followed by the plain segment after it. -/
def matchParts : List (List Char × List Char) → List (List Char)
  | [] => []
  | (b, q) :: rest => ('*' :: '*' :: (b ++ ['*', '*'])) :: q :: matchParts rest

/-! ## The quiz view state machine

State of the quiz view component: `currentQuestionIndex`, `userAnswers`
(`null` entries modelled as `none`), `showResults`, and the chat state.
The questions prop enters only through its length `n` (the handlers read
`questions.length` and `questions.length - 1`; in JavaScript
`questions.length - 1` is `-1` for an empty list and `idx < -1` is false,
which coincides with the saturating `n - 1 = 0` and `idx < 0` on `Nat`). -/

structure QuizState where
  currentQuestionIndex : Nat
  userAnswers : List (Option Nat)
  showResults : Bool
deriving DecidableEq

/-- The initial state of the component (`useState(0)`,
`new Array(questions.length).fill(null)`, `useState(false)`). -/
def initQuiz (n : Nat) : QuizState :=
  ⟨0, List.replicate n none, false⟩

def handleNext (n : Nat) (s : QuizState) : QuizState :=
  if s.currentQuestionIndex < n - 1 then
    { s with currentQuestionIndex := s.currentQuestionIndex + 1 }
  else { s with showResults := true }

def handlePrevious (s : QuizState) : QuizState :=
  if 0 < s.currentQuestionIndex then
    { s with currentQuestionIndex := s.currentQuestionIndex - 1 }
  else s

def resetQuiz (n : Nat) (_s : QuizState) : QuizState := initQuiz n

/-- The `useEffect` on `[questions]`: reset index, answers and results
(the chat transcript is deliberately not touched). -/
def questionsChange (n : Nat) (_s : QuizState) : QuizState := initQuiz n

/-- `userAnswers[currentQuestionIndex]`: `none` models a JavaScript
out-of-bounds read (`undefined`), `some none` a stored `null`. -/
def currentAnswer (s : QuizState) : Option (Option Nat) :=
  s.userAnswers[s.currentQuestionIndex]?

/-- `isAnswered = currentAnswer !== null` (an out-of-bounds `undefined` is
also `!== null`). -/
def isAnswered (s : QuizState) : Bool :=
  match currentAnswer s with
  | some none => false
  | _ => true

def handleOptionClick (i : Nat) (s : QuizState) : QuizState :=
  if isAnswered s then s
  else { s with userAnswers := s.userAnswers.set s.currentQuestionIndex (some i) }

/-! ## The chat state -/

inductive Sender
  | user
  | ai
deriving DecidableEq

structure ChatMessage where
  id : String
  sender : Sender
  text : String
deriving DecidableEq

structure ChatState where
  chatMessages : List ChatMessage
  chatInput : String
  isChatLoading : Bool
deriving DecidableEq

/-- Result of an awaited environment call that can throw: `err` carries the
thrown error message (`none` when the thrown value has no `message`). -/
inductive ExcResult (α : Type)
  | ok : α → ExcResult α
  | err : Option String → ExcResult α
deriving DecidableEq

def tutorFailText : String := "Sorry, I couldn't answer that right now."

/-- The text of the AI chat reply: the tutor answer on success, the fixed
apology on a thrown error. -/
def aiReplyText : ExcResult String → String
  | .ok t => t
  | .err _ => tutorFailText

/-- `handleChatSubmit`: guarded by `!chatInput.trim() || !imageSrc ||
isChatLoading` (a missing image source or an empty-string one is falsy);
past the guard it appends the user message (text as typed, untrimmed, id
`Date.now()`), clears the input, and appends exactly one AI message
(id `Date.now() + 1`), with `isChatLoading` back to false after `finally`.
The clock value is the explicit parameter `now`. -/
def handleChatSubmit (imageSrc : Option String) (now : Nat)
    (ask : ExcResult String) (s : ChatState) : ChatState :=
  if jsTrimList s.chatInput.data = [] || imageSrc.getD "" = "" || s.isChatLoading then s
  else
    { chatMessages := s.chatMessages ++
        [⟨toString now, Sender.user, s.chatInput⟩,
         ⟨toString (now + 1), Sender.ai, aiReplyText ask⟩],
      chatInput := "",
      isChatLoading := false }

/-- The whole quiz view component state: quiz machine plus chat. -/
structure QuizViewState where
  quiz : QuizState
  chat : ChatState
deriving DecidableEq

/-- The quiz-side operations of the component; none of their handlers calls
a chat state setter. -/
inductive QuizOp
  | next
  | previous
  | reset
  | questionsChanged
  | optionClick : Nat → QuizOp
deriving DecidableEq

def quizViewQuizStep (n : Nat) (op : QuizOp) (s : QuizViewState) : QuizViewState :=
  { s with
    quiz :=
      match op with
      | .next => handleNext n s.quiz
      | .previous => handlePrevious s.quiz
      | .reset => resetQuiz n s.quiz
      | .questionsChanged => questionsChange n s.quiz
      | .optionClick i => handleOptionClick i s.quiz }

def quizViewChatSubmit (imageSrc : Option String) (now : Nat)
    (ask : ExcResult String) (s : QuizViewState) : QuizViewState :=
  { s with chat := handleChatSubmit imageSrc now ask s.chat }

/-- Typing in the chat input box (`setChatInput(e.target.value)`). -/
def quizViewInputChange (t : String) (s : QuizViewState) : QuizViewState :=
  { s with chat := { s.chat with chatInput := t } }

/-! ## App-level upload, analysis and reset (`src/App.tsx`) -/

structure QuizQuestion where
  question : String
  options : List String
  correctAnswerIndex : Nat
  explanation : String
deriving DecidableEq

structure AnalysisResult where
  title : String
  explanation : String
  relationshipDescription : String
  quiz : List QuizQuestion
deriving DecidableEq

inductive ProcStatus
  | idle
  | analyzing
  | complete
  | error : String → ProcStatus
deriving DecidableEq

structure AppState where
  image : Option String
  result : Option AnalysisResult
  processingState : ProcStatus
  isGeneratingMore : Bool
deriving DecidableEq

def invalidImageError : String := "Please upload a valid image file."

def fallbackError : String := "An unexpected error occurred while processing the image."

/-- `err.message || 'An unexpected error occurred while processing the
image.'`: the thrown message, with the fallback for a missing or empty one. -/
def errMessageOf : Option String → String
  | some t => if t = "" then fallbackError else t
  | none => fallbackError

/-- `processFile`: clears image and result, enters `analyzing`; rejects a
file whose MIME type does not start with `image/` before any environment
call; otherwise awaits the read and then the model analysis, ending in
`complete` or `error`. The returned Bool records whether `analyzeImage`
(the model API) was called. -/
def processFile (fileType : String) (readResult : ExcResult String)
    (analyzeResult : ExcResult AnalysisResult) (s : AppState) : AppState × Bool :=
  let s0 : AppState :=
    { s with image := none, result := none, processingState := ProcStatus.analyzing }
  if !startsWithList "image/".data fileType.data then
    ({ s0 with processingState := ProcStatus.error invalidImageError }, false)
  else
    match readResult with
    | .err m => ({ s0 with processingState := ProcStatus.error (errMessageOf m) }, false)
    | .ok b64 =>
      match analyzeResult with
      | .err m =>
        ({ s0 with image := some b64,
                   processingState := ProcStatus.error (errMessageOf m) }, true)
      | .ok r =>
        ({ s0 with image := some b64, result := some r,
                   processingState := ProcStatus.complete }, true)

def handleReset (s : AppState) : AppState :=
  { s with image := none, result := none, processingState := ProcStatus.idle }

/-- `handleGenerateMoreQuestions`: returns unchanged when `!image || !result`
(no image, an empty-string image, or no result); otherwise on success
replaces the quiz of the result (object spread keeps the other fields), on
a thrown error only logs; `finally` puts `isGeneratingMore` back to false. -/
def handleGenerateMoreQuestions (genResult : ExcResult (List QuizQuestion))
    (s : AppState) : AppState :=
  if s.image.getD "" = "" || s.result.isNone then s
  else
    match s.result, genResult with
    | some r, .ok qs => { s with result := some { r with quiz := qs }, isGeneratingMore := false }
    | some _, .err _ => { s with isGeneratingMore := false }
    | none, _ => s

/-! ## Claim statement predicates -/

/-- What keeps `currentQuestionIndex` in range: `handleNext` increments only
below the last index and otherwise only sets `showResults`; `handlePrevious`
decrements only above zero; reset and the questions-change effect return to
zero; an option click never moves the index. -/
def QuizIndexSafe (n : Nat) (s : QuizState) : Prop :=
  (handleNext n s).currentQuestionIndex ≤ n - 1 ∧
  (s.currentQuestionIndex < n - 1 →
    handleNext n s = { s with currentQuestionIndex := s.currentQuestionIndex + 1 }) ∧
  (¬ s.currentQuestionIndex < n - 1 →
    handleNext n s = { s with showResults := true }) ∧
  (handlePrevious s).currentQuestionIndex ≤ n - 1 ∧
  (0 < s.currentQuestionIndex →
    handlePrevious s = { s with currentQuestionIndex := s.currentQuestionIndex - 1 }) ∧
  (s.currentQuestionIndex = 0 → handlePrevious s = s) ∧
  (resetQuiz n s).currentQuestionIndex = 0 ∧
  (questionsChange n s).currentQuestionIndex = 0 ∧
  ∀ i, (handleOptionClick i s).currentQuestionIndex = s.currentQuestionIndex

/-- What makes a recorded answer immutable: a click on an answered question
changes nothing; a click never touches an entry other than the current one;
an entry already holding a number survives any click. -/
def AnswerImmutable (s : QuizState) (i : Nat) : Prop :=
  (isAnswered s = true → handleOptionClick i s = s) ∧
  (∀ (j : Nat), j ≠ s.currentQuestionIndex →
    (handleOptionClick i s).userAnswers[j]? = s.userAnswers[j]?) ∧
  (∀ (j k : Nat), s.userAnswers[j]? = some (some k) →
    (handleOptionClick i s).userAnswers[j]? = some (some k))

/-- What C7 requires of `processFile` and `handleReset`: a non-image MIME
type ends in the fixed error with the model API never called; a throwing
read or analysis ends in an error carrying the thrown message or the
fallback; `handleReset` from an error state returns to `idle` with image and
result cleared. -/
def ProcessFileSafe (s : AppState) : Prop :=
  (∀ ft rr ar, startsWithList "image/".data ft.data = false →
    processFile ft rr ar s =
      (⟨none, none, ProcStatus.error invalidImageError, s.isGeneratingMore⟩, false)) ∧
  (∀ ft m ar, startsWithList "image/".data ft.data = true →
    processFile ft (ExcResult.err m) ar s =
      (⟨none, none, ProcStatus.error (errMessageOf m), s.isGeneratingMore⟩, false)) ∧
  (∀ ft b m, startsWithList "image/".data ft.data = true →
    processFile ft (ExcResult.ok b) (ExcResult.err m) s =
      (⟨some b, none, ProcStatus.error (errMessageOf m), s.isGeneratingMore⟩, true)) ∧
  (∀ e, s.processingState = ProcStatus.error e →
    handleReset s = ⟨none, none, ProcStatus.idle, s.isGeneratingMore⟩)

/-- What the amended C8 asserts: past the guard, a submission appends
exactly one user message (the typed text) and one AI message (the answer or
the fixed apology) after the existing transcript, clears the input, and no
quiz operation or input keystroke touches the transcript. -/
def ChatAppendOnly (s : QuizViewState) (img : String) (now : Nat)
    (ask : ExcResult String) : Prop :=
  (quizViewChatSubmit (some img) now ask s).chat.chatMessages =
    s.chat.chatMessages ++
      [⟨toString now, Sender.user, s.chat.chatInput⟩,
       ⟨toString (now + 1), Sender.ai, aiReplyText ask⟩] ∧
  (quizViewChatSubmit (some img) now ask s).chat.chatInput = "" ∧
  (∀ n op, (quizViewQuizStep n op s).chat.chatMessages = s.chat.chatMessages) ∧
  (∀ t, (quizViewInputChange t s).chat.chatMessages = s.chat.chatMessages)


/-! ## String primitive lemmas -/

theorem startsWithList_self_append (p t : List Char) : startsWithList p (p ++ t) = true := by
  induction p with
  | nil => rfl
  | cons c ps ih => simp [startsWithList, ih]

theorem startsWithList_eq_append {p l : List Char} (h : startsWithList p l = true) :
    ∃ t, l = p ++ t := by
  induction p generalizing l with
  | nil => exact ⟨l, rfl⟩
  | cons c ps ih =>
    cases l with
    | nil => simp [startsWithList] at h
    | cons d ds =>
      simp only [startsWithList, Bool.and_eq_true, beq_iff_eq] at h
      obtain ⟨t, ht⟩ := ih h.2
      exact ⟨t, by simp [h.1, ht]⟩

theorem removeFirstList_of_startsWith {pat l : List Char}
    (h : startsWithList pat l = true) :
    removeFirstList pat l = l.drop pat.length := by
  cases l with
  | nil =>
    cases pat with
    | nil => rfl
    | cons p ps => simp [startsWithList] at h
  | cons c cs =>
    unfold removeFirstList
    rw [if_pos h]

theorem removeFirstList_self_append (pat t : List Char) :
    removeFirstList pat (pat ++ t) = t := by
  rw [removeFirstList_of_startsWith (startsWithList_self_append pat t)]
  exact List.drop_left pat t

theorem jsTrimList_cons_of_not_ws {c : Char} (l : List Char)
    (h : jsWhitespaceChar c = false) : ∃ t, jsTrimList (c :: l) = c :: t := by
  unfold jsTrimList
  rw [List.dropWhile_cons, if_neg (by simp [h])]
  unfold trimRight
  rw [List.reverse_cons, List.dropWhile_append]
  split
  · exact ⟨[], by simp [List.dropWhile_cons, h]⟩
  · exact ⟨(l.reverse.dropWhile jsWhitespaceChar).reverse, by simp⟩

theorem isBulletLine_cons_eq_false {c : Char} {l : List Char}
    (hws : jsWhitespaceChar c = false) (hc : c ≠ '-') :
    isBulletLine (c :: l) = false := by
  unfold isBulletLine
  obtain ⟨t, ht⟩ := jsTrimList_cons_of_not_ws l hws
  rw [ht]
  simp only [dashSpace, startsWithList, Bool.and_eq_false_iff]
  left
  simp [Ne.symm hc]

theorem not_bullet_of_h2 {line : List Char}
    (h : startsWithList h2Marker line = true) : isBulletLine line = false := by
  obtain ⟨t, ht⟩ := startsWithList_eq_append h
  subst ht
  exact isBulletLine_cons_eq_false (by decide) (by decide)

theorem not_bullet_of_h3 {line : List Char}
    (h : startsWithList h3Marker line = true) : isBulletLine line = false := by
  obtain ⟨t, ht⟩ := startsWithList_eq_append h
  subst ht
  exact isBulletLine_cons_eq_false (by decide) (by decide)

/-- The anchored numbered-line match, as the regex test plus the two
captured groups. -/
theorem numMatch_eq (cs : List Char) :
    numMatch cs =
      if numTest cs then
        some (String.mk (cs.takeWhile Char.isDigit),
          ((cs.dropWhile Char.isDigit).drop 2).takeWhile (fun x => !lineTerm x))
      else none := by
  unfold numMatch numTest
  rcases h : cs.dropWhile Char.isDigit with _ | ⟨c1, cs2⟩
  · simp
  · rcases cs2 with _ | ⟨c2, cs3⟩
    · by_cases hc : c1 = '.' <;> simp [hc]
    · by_cases hc : c1 = '.'
      · subst hc
        by_cases hd : cs.takeWhile Char.isDigit = []
        · simp [hd]
        · by_cases hw : jsWhitespaceChar c2 = true <;> simp [hd, hw]
      · simp [hc]

/-- The specified classification of a single non-bullet line coincides with
the source's branch chain. -/
theorem specLineBlocks_eq_blockOfLine (line : List Char) :
    specLineBlocks line = blockOfLine line := by
  unfold specLineBlocks blockOfLine
  by_cases h2 : startsWithList h2Marker line = true
  · rw [if_pos h2, if_pos h2]
    obtain ⟨t, ht⟩ := startsWithList_eq_append h2
    subst ht
    rw [removeFirstList_self_append]
    rfl
  · rw [if_neg h2, if_neg h2]
    by_cases h3 : startsWithList h3Marker line = true
    · rw [if_pos h3, if_pos h3]
      obtain ⟨t, ht⟩ := startsWithList_eq_append h3
      subst ht
      rw [removeFirstList_self_append]
      rfl
    · rw [if_neg h3, if_neg h3]
      by_cases hn : numTest (jsTrimList line) = true
      · rw [if_pos hn, if_pos hn]
        rw [numMatch_eq]
        by_cases hr : numTest line = true
        · rw [if_pos hr, if_pos hr]
        · rw [if_neg hr, if_neg hr]
      · rw [if_neg hn, if_neg hn]

/-! ## The formatter loop: bullet runs and the specified grouping -/

theorem formatLines_cons (line : List Char) (rest : List (List Char))
    (items : List (List Inline)) :
    formatLines (line :: rest) items =
      if isBulletLine line then
        if flushAfter rest then
          Block.bullets (items ++ [bulletItem line]) :: formatLines rest []
        else formatLines rest (items ++ [bulletItem line])
      else blockOfLine line ++ formatLines rest items := rfl

theorem specBlocks_nil : specBlocks [] = [] := by
  rw [specBlocks.eq_def]

theorem specBlocks_cons (line : List Char) (rest : List (List Char)) :
    specBlocks (line :: rest) =
      if isBulletLine line then
        Block.bullets ((line :: rest.takeWhile isBulletLine).map bulletItem) ::
          specBlocks (rest.dropWhile isBulletLine)
      else specLineBlocks line ++ specBlocks rest := by
  rw [specBlocks.eq_def]

/-- The loop, entered at the start of a bullet run with any accumulated
items, emits one bullet-list node holding those items followed by one item
per line of the run, and continues after the run with an empty accumulator. -/
theorem formatLines_bullet_run (run rest : List (List Char)) (items : List (List Inline))
    (hne : run ≠ []) (hb : ∀ l ∈ run, isBulletLine l = true)
    (hf : flushAfter rest = true) :
    formatLines (run ++ rest) items =
      Block.bullets (items ++ run.map bulletItem) :: formatLines rest [] := by
  induction run generalizing items with
  | nil => exact absurd rfl hne
  | cons l run2 ih =>
    cases run2 with
    | nil =>
      rw [List.cons_append, List.nil_append, formatLines_cons,
        if_pos (hb l (by simp)), if_pos hf]
      simp
    | cons l2 run3 =>
      rw [List.cons_append, formatLines_cons, if_pos (hb l (by simp))]
      rw [if_neg (by simp [flushAfter, hb l2 (by simp)])]
      rw [ih (items ++ [bulletItem l]) (by simp) (fun x hx => hb x (by simp [hx]))]
      simp

theorem flushAfter_dropWhile (ls : List (List Char)) :
    flushAfter (ls.dropWhile isBulletLine) = true := by
  induction ls with
  | nil => rfl
  | cons l ls ih =>
    rw [List.dropWhile_cons]
    split
    · exact ih
    · rename_i h
      have h' : isBulletLine l = false := by
        revert h
        cases isBulletLine l <;> simp
      simp [flushAfter, h']

theorem formatLines_eq_specBlocks_aux (n : Nat) :
    ∀ lines : List (List Char), lines.length ≤ n → formatLines lines [] = specBlocks lines := by
  induction n with
  | zero =>
    intro lines h
    have h0 : lines = [] := List.length_eq_zero.mp (Nat.le_zero.mp h)
    subst h0
    exact specBlocks_nil.symm
  | succ n ih =>
    intro lines h
    cases lines with
    | nil => exact specBlocks_nil.symm
    | cons line rest =>
      rw [specBlocks_cons]
      by_cases hb : isBulletLine line = true
      · rw [if_pos hb]
        conv_lhs =>
          rw [show line :: rest =
            (line :: rest.takeWhile isBulletLine) ++ rest.dropWhile isBulletLine by
              rw [List.cons_append, List.takeWhile_append_dropWhile]]
        rw [formatLines_bullet_run _ _ [] (by simp)
            (by
              intro x hx
              rcases List.mem_cons.mp hx with h1 | h2
              · exact h1 ▸ hb
              · exact List.mem_takeWhile_imp h2)
            (flushAfter_dropWhile rest)]
        rw [ih (rest.dropWhile isBulletLine)
          (le_trans (List.dropWhile_sublist isBulletLine).length_le (by simpa using h))]
        simp
      · rw [if_neg hb, formatLines_cons, if_neg hb]
        rw [ih rest (by simpa using h)]
        rw [specLineBlocks_eq_blockOfLine]

theorem formatLines_eq_specBlocks (lines : List (List Char)) :
    formatLines lines [] = specBlocks lines :=
  formatLines_eq_specBlocks_aux lines.length lines le_rfl

/-! ## Heading extraction lemmas -/

theorem h2_not_bullet (line : List Char) :
    isBulletLine line = true → startsWithList h2Marker line = false := by
  intro hb
  cases hx : startsWithList h2Marker line with
  | false => rfl
  | true => rw [not_bullet_of_h2 hx] at hb; exact absurd hb (by simp)

theorem h3_not_bullet (line : List Char) :
    isBulletLine line = true → startsWithList h3Marker line = false := by
  intro hb
  cases hx : startsWithList h3Marker line with
  | false => rfl
  | true => rw [not_bullet_of_h3 hx] at hb; exact absurd hb (by simp)

theorem h2Texts_blockOfLine (line : List Char) :
    h2Texts (blockOfLine line) =
      if startsWithList h2Marker line then [String.mk (line.drop 3)] else [] := by
  unfold blockOfLine
  by_cases hx : startsWithList h2Marker line = true
  · rw [if_pos hx, if_pos hx]
    obtain ⟨t, ht⟩ := startsWithList_eq_append hx
    subst ht
    rw [removeFirstList_self_append]
    rfl
  · rw [if_neg hx, if_neg hx]
    by_cases h3 : startsWithList h3Marker line = true
    · rw [if_pos h3]
      rfl
    · rw [if_neg h3]
      by_cases hn : numTest (jsTrimList line) = true
      · rw [if_pos hn]
        rcases hm : numMatch line with _ | ⟨num, content⟩
        · rfl
        · rfl
      · rw [if_neg hn]
        by_cases hs : jsTrimList line = []
        · rw [if_pos hs]
          rfl
        · rw [if_neg hs]
          rfl

theorem h3Texts_blockOfLine (line : List Char) :
    h3Texts (blockOfLine line) =
      if startsWithList h3Marker line then [String.mk (line.drop 4)] else [] := by
  unfold blockOfLine
  by_cases hx : startsWithList h2Marker line = true
  · have h3 : startsWithList h3Marker line = false := by
      obtain ⟨t, ht⟩ := startsWithList_eq_append hx
      subst ht
      rfl
    rw [if_pos hx, h3, if_neg (by simp)]
    rfl
  · rw [if_neg hx]
    by_cases h3 : startsWithList h3Marker line = true
    · rw [if_pos h3, if_pos h3]
      obtain ⟨t, ht⟩ := startsWithList_eq_append h3
      subst ht
      rw [removeFirstList_self_append]
      rfl
    · rw [if_neg h3, if_neg h3]
      by_cases hn : numTest (jsTrimList line) = true
      · rw [if_pos hn]
        rcases hm : numMatch line with _ | ⟨num, content⟩
        · rfl
        · rfl
      · rw [if_neg hn]
        by_cases hs : jsTrimList line = []
        · rw [if_pos hs]
          rfl
        · rw [if_neg hs]
          rfl

theorem h2Texts_formatLines (lines : List (List Char)) :
    ∀ items, h2Texts (formatLines lines items) =
      (lines.filter (fun l => startsWithList h2Marker l)).map
        (fun l => String.mk (l.drop 3)) := by
  induction lines with
  | nil => intro items; rfl
  | cons line rest ih =>
    intro items
    rw [formatLines_cons, List.filter_cons]
    by_cases hb : isBulletLine line = true
    · have hno : startsWithList h2Marker line = false := h2_not_bullet line hb
      rw [if_pos hb, hno, if_neg (show ¬ (false = true) by simp)]
      by_cases hf : flushAfter rest = true
      · rw [if_pos hf]
        show h2Texts (Block.bullets _ :: formatLines rest []) = _
        unfold h2Texts
        rw [List.filterMap_cons]
        exact ih []
      · rw [if_neg hf]
        exact ih _
    · rw [if_neg hb]
      have happ : h2Texts (blockOfLine line ++ formatLines rest items) =
          h2Texts (blockOfLine line) ++ h2Texts (formatLines rest items) :=
        List.filterMap_append _ _ _
      rw [happ, h2Texts_blockOfLine, ih items]
      by_cases hh : startsWithList h2Marker line = true
      · rw [if_pos hh, if_pos hh]
        rfl
      · rw [if_neg hh, if_neg hh]
        rfl

theorem h3Texts_formatLines (lines : List (List Char)) :
    ∀ items, h3Texts (formatLines lines items) =
      (lines.filter (fun l => startsWithList h3Marker l)).map
        (fun l => String.mk (l.drop 4)) := by
  induction lines with
  | nil => intro items; rfl
  | cons line rest ih =>
    intro items
    rw [formatLines_cons, List.filter_cons]
    by_cases hb : isBulletLine line = true
    · have hno : startsWithList h3Marker line = false := h3_not_bullet line hb
      rw [if_pos hb, hno, if_neg (show ¬ (false = true) by simp)]
      by_cases hf : flushAfter rest = true
      · rw [if_pos hf]
        show h3Texts (Block.bullets _ :: formatLines rest []) = _
        unfold h3Texts
        rw [List.filterMap_cons]
        exact ih []
      · rw [if_neg hf]
        exact ih _
    · rw [if_neg hb]
      have happ : h3Texts (blockOfLine line ++ formatLines rest items) =
          h3Texts (blockOfLine line) ++ h3Texts (formatLines rest items) :=
        List.filterMap_append _ _ _
      rw [happ, h3Texts_blockOfLine, ih items]
      by_cases hh : startsWithList h3Marker line = true
      · rw [if_pos hh, if_pos hh]
        rfl
      · rw [if_neg hh, if_neg hh]
        rfl

/-! ## Scanner lemmas for the inline bold parser -/

theorem findClose_clean (b : List Char) (r : List Char)
    (hstar : '*' ∉ b) (hterm : ∀ c ∈ b, lineTerm c = false) :
    findClose (b ++ ('*' :: '*' :: r)) = some (b, r) := by
  induction b with
  | nil => rfl
  | cons c cs ih =>
    have hc : c ≠ '*' := fun e => hstar (e ▸ List.mem_cons_self c cs)
    rw [List.cons_append]
    unfold findClose
    rw [if_neg (by simp [hc])]
    rw [if_neg (by simp [hterm c (List.mem_cons_self c cs)])]
    rw [ih (fun hx => hstar (List.mem_cons_of_mem c hx))
        (fun x hx => hterm x (List.mem_cons_of_mem c hx))]

theorem scanParts_nil (fuel : Nat) (acc : List Char) :
    scanParts fuel acc [] = [acc.reverse] := by
  cases fuel <;> rfl

theorem scanParts_succ_cons (fuel : Nat) (acc : List Char) (c : Char) (rest : List Char) :
    scanParts (fuel + 1) acc (c :: rest) =
      if c = '*' && rest.head? = some '*' then
        match findClose rest.tail with
        | some (content, r) =>
          acc.reverse :: ('*' :: '*' :: (content ++ ['*', '*'])) :: scanParts fuel [] r
        | none => scanParts fuel (c :: acc) rest
      else scanParts fuel (c :: acc) rest := rfl

theorem scanParts_plain (p : List Char) :
    ∀ (fuel : Nat) (acc rest : List Char), '*' ∉ p → p.length ≤ fuel →
    scanParts fuel acc (p ++ rest) =
      scanParts (fuel - p.length) (p.reverse ++ acc) rest := by
  induction p with
  | nil => intro fuel acc rest _ _; simp
  | cons c cs ih =>
    intro fuel acc rest hstar hlen
    have hc : c ≠ '*' := fun e => hstar (e ▸ List.mem_cons_self c cs)
    cases fuel with
    | zero => exact absurd hlen (by simp)
    | succ f =>
      rw [List.cons_append, scanParts_succ_cons, if_neg (by simp [hc])]
      rw [ih f (c :: acc) rest (fun hx => hstar (List.mem_cons_of_mem c hx))
        (Nat.le_of_succ_le_succ hlen)]
      have e1 : f + 1 - (c :: cs).length = f - cs.length := by
        simp [Nat.succ_sub_succ]
      have e2 : (c :: cs).reverse ++ acc = cs.reverse ++ (c :: acc) := by
        simp
      rw [e1, e2]

theorem scanParts_bold (b r : List Char) (f : Nat) (acc : List Char)
    (hb : cleanBold b) :
    scanParts (f + 1) acc ('*' :: '*' :: (b ++ ('*' :: '*' :: r))) =
      acc.reverse :: ('*' :: '*' :: (b ++ ['*', '*'])) :: scanParts f [] r := by
  rw [scanParts_succ_cons, if_pos (by simp)]
  show (match findClose (b ++ ('*' :: '*' :: r)) with
    | some (content, r2) =>
        acc.reverse :: ('*' :: '*' :: (content ++ ['*', '*'])) :: scanParts f [] r2
    | none => scanParts f ('*' :: acc) ('*' :: (b ++ ('*' :: '*' :: r)))) = _
  rw [findClose_clean b r hb.1 hb.2]

theorem scan_chunks (rest : List (List Char × List Char)) :
    ∀ (q : List Char) (fuel : Nat) (acc : List Char), '*' ∉ q →
    (∀ bp ∈ rest, cleanBold bp.1 ∧ '*' ∉ bp.2) →
    (encodeChunks q rest).length ≤ fuel →
    scanParts fuel acc (encodeChunks q rest) = (acc.reverse ++ q) :: matchParts rest := by
  induction rest with
  | nil =>
    intro q fuel acc hq _ hlen
    show scanParts fuel acc q = _
    rw [show q = q ++ [] by simp]
    rw [scanParts_plain q fuel acc [] hq (by simpa using hlen)]
    rw [scanParts_nil]
    simp [matchParts]
  | cons bp r ih =>
    obtain ⟨b, p2⟩ := bp
    intro q fuel acc hq hrest hlen
    show scanParts fuel acc (q ++ ('*' :: '*' :: (b ++ ('*' :: '*' :: encodeChunks p2 r)))) = _
    have hlen1 : (encodeChunks q ((b, p2) :: r)).length =
        q.length + (4 + b.length + (encodeChunks p2 r).length) := by
      show (q ++ ('*' :: '*' :: (b ++ ('*' :: '*' :: encodeChunks p2 r)))).length = _
      simp
      omega
    rw [scanParts_plain q fuel acc _ hq (by omega)]
    have hF : 4 + b.length + (encodeChunks p2 r).length ≤ fuel - q.length := by omega
    rcases hE : fuel - q.length with _ | f
    · omega
    · rw [scanParts_bold b _ f _ (hrest ⟨b, p2⟩ (by simp)).1]
      rw [ih p2 f [] (hrest ⟨b, p2⟩ (by simp)).2
        (fun x hx => hrest x (List.mem_cons_of_mem _ hx)) (by omega)]
      simp [matchParts]

theorem renderPart_plain (p : List Char) (h : '*' ∉ p) :
    renderPart p = Inline.plain (String.mk p) := by
  have hs : startsWithList ['*', '*'] p = false := by
    cases p with
    | nil => rfl
    | cons c cs =>
      have hc : c ≠ '*' := fun e => h (e ▸ List.mem_cons_self c cs)
      simp only [startsWithList, Bool.and_eq_false_iff]
      left
      simp [Ne.symm hc]
  unfold renderPart
  rw [if_neg (by simp [hs])]

theorem renderPart_match (b : List Char) :
    renderPart ('*' :: '*' :: (b ++ ['*', '*'])) = Inline.bold (String.mk b) := by
  have he : endsWithList ['*', '*'] ('*' :: '*' :: (b ++ ['*', '*'])) = true := by
    unfold endsWithList
    rw [show ('*' :: '*' :: (b ++ ['*', '*'])).reverse =
      (['*', '*'] : List Char) ++ (b.reverse ++ ['*', '*']) by simp]
    exact startsWithList_self_append _ _
  unfold renderPart
  rw [if_pos (by simp [he, startsWithList])]
  have hstrip : (('*' :: '*' :: (b ++ ['*', '*'])).drop 2).dropLast.dropLast = b := by
    show (b ++ ['*', '*']).dropLast.dropLast = b
    rw [show b ++ ['*', '*'] = (b ++ ['*']) ++ ['*'] by simp]
    rw [List.dropLast_concat, List.dropLast_concat]
  rw [hstrip]

theorem map_renderPart_chunks (rest : List (List Char × List Char)) :
    ∀ (p : List Char), '*' ∉ p → (∀ bp ∈ rest, cleanBold bp.1 ∧ '*' ∉ bp.2) →
    (p :: matchParts rest).map renderPart = chunkInlines p rest := by
  induction rest with
  | nil =>
    intro p hp _
    simp [matchParts, chunkInlines, renderPart_plain p hp]
  | cons bp r ih =>
    obtain ⟨b, q⟩ := bp
    intro p hp hrest
    show (p :: ('*' :: '*' :: (b ++ ['*', '*'])) :: q :: matchParts r).map renderPart =
      Inline.plain (String.mk p) :: Inline.bold (String.mk b) :: chunkInlines q r
    rw [List.map_cons, List.map_cons, renderPart_plain p hp, renderPart_match b]
    rw [ih q (hrest ⟨b, q⟩ (by simp)).2 (fun x hx => hrest x (List.mem_cons_of_mem _ hx))]

/-! ## The formatter claims -/

/-- C1 counterexample: the line " 1. a" (one leading space) has a trimmed
form matching digits, dot, space — the claim classifies it as a
numbered-list item and promises no line is dropped — yet `formatText` emits
no node at all for it, while the same line without the leading space yields
the numbered-list node. -/
theorem formatText_drops_indented_numbered :
    formatText " 1. a" = [] ∧
    formatText "1. a" = [Block.numbered "1" [Inline.plain "a"]] := by
  decide

/-- C1 (amended): `formatText` splits its input on newlines and maps the
lines, in order, exactly as `specBlocks` specifies: each maximal run of
bullet lines to one bullet-list node with one item per line, a line starting
with "## " to a level-2 heading, a line starting with "### " to a level-3
heading, a line whose trimmed form starts with digits, a dot and a
whitespace character to a numbered-list item when the digits start the raw
line — and to nothing when leading whitespace precedes the digits (the
amendment) — a whitespace-only line to a blank spacer, and any other line
to a paragraph. -/
theorem formatText_line_mapping (text : String) :
    formatText text = specBlocks (splitLinesList text.data) :=
  formatLines_eq_specBlocks (splitLinesList text.data)

/-- C2: a maximal run of consecutive bullet lines — every line a bullet
line, and the following line, if any, not one — produces exactly one
bullet-list node with one item per line in order; the accumulated items are
flushed exactly there, and the loop continues with an empty accumulator, so
nothing remains unemitted at the end of the input. -/
theorem bullet_runs_flush (run rest : List (List Char)) (items : List (List Inline))
    (hne : run ≠ []) (hb : ∀ l ∈ run, isBulletLine l = true)
    (hf : flushAfter rest = true) :
    formatLines (run ++ rest) items =
      Block.bullets (items ++ run.map bulletItem) :: formatLines rest [] :=
  formatLines_bullet_run run rest items hne hb hf

/-- Witness for C2 on a concrete two-line bullet run. -/
theorem bullet_runs_flush_witness :
    formatLines (["- a".data, "- b".data] ++ ["x".data]) [] =
      Block.bullets ([] ++ ["- a".data, "- b".data].map bulletItem) ::
        formatLines ["x".data] [] :=
  bullet_runs_flush ["- a".data, "- b".data] ["x".data] []
    (by decide) (by decide) (by decide)

/-- C3: `formatText` is a pure, deterministic function of its input string:
across any two sequences of calls, positions holding the same input string
produce the same output, with no state carried between calls. -/
theorem formatText_deterministic (xs ys : List String) (i : Nat)
    (h : xs[i]? = ys[i]?) :
    (xs.map formatText)[i]? = (ys.map formatText)[i]? := by
  simp [List.getElem?_map, h]

/-- Witness for C3: the same input at the same position of two different
call sequences. -/
theorem formatText_deterministic_witness :
    (["a"].map formatText)[0]? = ((["a", "b"]).map formatText)[0]? :=
  formatText_deterministic ["a"] ["a", "b"] 0 rfl

/-- C4 counterexample: the line "**" contains no delimiter pair at all, so
by the claim the whole line should be emitted as plain text unchanged; the
code instead emits a single empty bold span, because the lone part both
starts and ends with "**". -/
theorem parseInline_unpaired_delims :
    parseInlineStyles "**".data = [Inline.bold ""] ∧
    parseInlineStyles "**".data ≠ [Inline.plain "**"] := by
  decide

/-- C4 (amended): within a line that decomposes into alternating plain
segments (free of `*`) and bold segments `**…**` (content free of `*` and
of line terminators), every bold segment is emitted as a bold span with the
delimiters removed and every plain segment as plain text unchanged, in
order; a split part that itself merely begins and ends with `**` without
enclosing content between a matched pair — for example the lone remnant
"**" — is emitted as a bold span with its first and last two characters
removed rather than as plain text (the amendment). -/
theorem parseInline_wellformed (p : List Char) (rest : List (List Char × List Char))
    (hp : '*' ∉ p) (hrest : ∀ bp ∈ rest, cleanBold bp.1 ∧ '*' ∉ bp.2) :
    parseInlineStyles (encodeChunks p rest) = chunkInlines p rest := by
  unfold parseInlineStyles boldSplit
  rw [scan_chunks rest p _ [] hp hrest le_rfl]
  simpa using map_renderPart_chunks rest p hp hrest

/-- Witness for C4 on the concrete line "a **b** c". -/
theorem parseInline_wellformed_witness :
    parseInlineStyles (encodeChunks "a ".data [("b".data, " c".data)]) =
      chunkInlines "a ".data [("b".data, " c".data)] :=
  parseInline_wellformed "a ".data [("b".data, " c".data)] (by decide) (by decide)

/-- C5: the level-2 heading nodes of `formatText` are exactly the input
lines starting with "## ", in order, each holding the line with that prefix
removed; likewise the level-3 heading nodes are exactly the lines starting
with "### " with that prefix removed; by the shape of the `Block` type (one
constructor per rendered node kind) no heading of any other level exists. -/
theorem heading_levels (text : String) :
    h2Texts (formatText text) =
      ((splitLinesList text.data).filter (fun l => startsWithList h2Marker l)).map
        (fun l => String.mk (l.drop 3)) ∧
    h3Texts (formatText text) =
      ((splitLinesList text.data).filter (fun l => startsWithList h3Marker l)).map
        (fun l => String.mk (l.drop 4)) :=
  ⟨h2Texts_formatLines (splitLinesList text.data) [],
   h3Texts_formatLines (splitLinesList text.data) []⟩


/-! ## Quiz state machine: index range and answer immutability -/

/-- C6: for a non-empty question list, every operation of the quiz state
machine keeps `currentQuestionIndex` within `0 .. questions.length - 1`,
with `handleNext`, `handlePrevious`, `resetQuiz` and the questions-change
effect behaving exactly as the claim states. -/
theorem quiz_index_invariant (n : Nat) (s : QuizState)
    (_hn : 1 ≤ n) (hs : s.currentQuestionIndex ≤ n - 1) : QuizIndexSafe n s := by
  refine ⟨?_, ?_, ?_, ?_, ?_, ?_, rfl, rfl, fun i => ?_⟩
  · unfold handleNext
    split
    · show s.currentQuestionIndex + 1 ≤ n - 1
      omega
    · exact hs
  · intro h
    unfold handleNext
    rw [if_pos h]
  · intro h
    unfold handleNext
    rw [if_neg h]
  · unfold handlePrevious
    split
    · show s.currentQuestionIndex - 1 ≤ n - 1
      omega
    · exact hs
  · intro h
    unfold handlePrevious
    rw [if_pos h]
  · intro h
    unfold handlePrevious
    rw [if_neg (by omega)]
  · unfold handleOptionClick
    split
    · rfl
    · rfl

/-- Witness for C6 at a concrete state. -/
theorem quiz_index_invariant_witness : QuizIndexSafe 2 (initQuiz 2) :=
  quiz_index_invariant 2 (initQuiz 2) (by decide) (by decide)

/-- C10: `handleOptionClick` leaves the state unchanged once the current
question is answered, never changes an entry of `userAnswers` other than the
current one, and never overwrites an entry that already holds a number, so
each entry goes from `null` to a number at most once between resets. -/
theorem answer_immutable (s : QuizState) (i : Nat) : AnswerImmutable s i := by
  refine ⟨?_, ?_, ?_⟩
  · intro h
    unfold handleOptionClick
    rw [if_pos h]
  · intro j hj
    unfold handleOptionClick
    split
    · rfl
    · exact List.getElem?_set_ne (fun e => hj e.symm)
  · intro j k hk
    by_cases hj : j = s.currentQuestionIndex
    · have ha : isAnswered s = true := by
        unfold isAnswered currentAnswer
        rw [← hj]
        show (match s.userAnswers[j]? with
          | some none => false
          | _ => true) = true
        rw [hk]
      unfold handleOptionClick
      rw [if_pos ha]
      exact hk
    · unfold handleOptionClick
      split
      · exact hk
      · show (s.userAnswers.set s.currentQuestionIndex (some i))[j]? = some (some k)
        rw [List.getElem?_set_ne (fun e => hj e.symm)]
        exact hk

/-- Witness for C10 at a concrete answered state. -/
theorem answer_immutable_witness : AnswerImmutable ⟨0, [some 2, none], false⟩ 1 :=
  answer_immutable ⟨0, [some 2, none], false⟩ 1

/-! ## App-level error handling and the generate-more frame property -/

/-- C7: `processFile` ends in the error state with recovery available and
nothing worse, and `handleReset` returns to `idle` with image and result
cleared. -/
theorem processFile_error_recovery (s : AppState) : ProcessFileSafe s := by
  refine ⟨fun ft rr ar h => ?_, fun ft m ar h => ?_, fun ft b m h => ?_, fun e _ => rfl⟩
  · unfold processFile
    rw [if_pos (by simp [h])]
  · unfold processFile
    rw [if_neg (by simp [h])]
  · unfold processFile
    rw [if_neg (by simp [h])]

/-- Witness for C7 at a concrete state. -/
theorem processFile_error_recovery_witness :
    ProcessFileSafe ⟨none, none, ProcStatus.idle, false⟩ :=
  processFile_error_recovery ⟨none, none, ProcStatus.idle, false⟩

/-- C9: past its guard, `handleGenerateMoreQuestions` on success replaces
only the quiz of the analysis result (title, explanation and relationship
description survive the object spread) and on failure leaves the result,
quiz included, unchanged; only `isGeneratingMore` is put back to false. -/
theorem generateMore_frame (s : AppState) (img : String) (r : AnalysisResult)
    (qs : List QuizQuestion) (m : Option String)
    (h1 : s.image = some img) (h2 : img ≠ "") (h3 : s.result = some r) :
    handleGenerateMoreQuestions (ExcResult.ok qs) s =
      { s with
        result := some ⟨r.title, r.explanation, r.relationshipDescription, qs⟩,
        isGeneratingMore := false } ∧
    handleGenerateMoreQuestions (ExcResult.err m) s =
      { s with isGeneratingMore := false } := by
  unfold handleGenerateMoreQuestions
  rw [h1, h3]
  simp [h2]

/-- Witness for C9 at a concrete state. -/
theorem generateMore_frame_witness :
    handleGenerateMoreQuestions (ExcResult.ok [⟨"q", ["a", "b"], 0, "e"⟩])
        ⟨some "d", some ⟨"t", "x", "rel", []⟩, ProcStatus.complete, true⟩ =
      ⟨some "d", some ⟨"t", "x", "rel", [⟨"q", ["a", "b"], 0, "e"⟩]⟩,
        ProcStatus.complete, false⟩ ∧
    handleGenerateMoreQuestions (ExcResult.err (some "boom"))
        ⟨some "d", some ⟨"t", "x", "rel", []⟩, ProcStatus.complete, true⟩ =
      ⟨some "d", some ⟨"t", "x", "rel", []⟩, ProcStatus.complete, false⟩ :=
  generateMore_frame ⟨some "d", some ⟨"t", "x", "rel", []⟩, ProcStatus.complete, true⟩
    "d" ⟨"t", "x", "rel", []⟩ [⟨"q", ["a", "b"], 0, "e"⟩] (some "boom")
    rfl (by decide) rfl

/-! ## The chat transcript -/

/-- C8 counterexample: with no image source present, submitting the
non-blank input "hi" while not loading appends nothing at all — the
transcript stays empty and the input is not even cleared — contradicting
the claim that every such submission appends a user message and an AI
message. -/
theorem chat_submit_no_image_appends_nothing :
    handleChatSubmit none 0 (ExcResult.ok "answer") ⟨[], "hi", false⟩ =
      ⟨[], "hi", false⟩ := by
  decide

/-- C8 (amended): provided an image source is present (non-null and
non-empty, the guard the claim omits), every submission of a non-blank chat
input while not loading appends exactly one user message followed by exactly
one AI message, and no quiz or chat operation modifies or removes a stored
message. -/
theorem chat_append_only (s : QuizViewState) (img : String) (now : Nat)
    (ask : ExcResult String)
    (hload : s.chat.isChatLoading = false)
    (hinput : jsTrimList s.chat.chatInput.data ≠ [])
    (himg : img ≠ "") : ChatAppendOnly s img now ask := by
  refine ⟨?_, ?_, fun n op => rfl, fun t => rfl⟩
  · unfold quizViewChatSubmit handleChatSubmit
    rw [if_neg (by simp [hload, hinput, himg])]
  · unfold quizViewChatSubmit handleChatSubmit
    rw [if_neg (by simp [hload, hinput, himg])]

/-- Witness for C8 at a concrete state. -/
theorem chat_append_only_witness :
    ChatAppendOnly ⟨initQuiz 1, ⟨[], "hi", false⟩⟩ "data:image/png;base64,x" 7
      (ExcResult.err none) :=
  chat_append_only ⟨initQuiz 1, ⟨[], "hi", false⟩⟩ "data:image/png;base64,x" 7
    (ExcResult.err none) rfl (by decide) (by decide)

end DiagramScholar
